import Mathlib

/-!
Verification development for the event-storyboard backend.

The development shallowly embeds the backend's document-store adapter
(`database.py`), its request handlers (`main.py`) and the export renderer
into Lean. Python dictionaries become association lists over a `Val` type
of JSON-like values; the Mongo collection layer becomes an explicit
`Store` with a fresh-ObjectId counter; Python exceptions become `none` of
an `Option`-returning function.
-/

set_option autoImplicit false

namespace Storyboard

/-- JSON-like values stored in documents: Python `None`, booleans, numbers
(datetimes are modelled as natural-number timestamps), strings, storage
ObjectIds, lists and nested dictionaries. -/
inductive Val where
  | null
  | bool (b : Bool)
  | nat (n : Nat)
  | str (s : String)
  | oid (n : Nat)
  | list (vs : List Val)
  | dict (fs : List (String × Val))
  deriving Repr

mutual

/-- Python `==` on stored values (structural equality). -/
def vbeq : Val → Val → Bool
  | .null, .null => true
  | .bool a, .bool b => a == b
  | .nat a, .nat b => a == b
  | .str a, .str b => a == b
  | .oid a, .oid b => a == b
  | .list as, .list bs => vlbeq as bs
  | .dict a, .dict b => vdbeq a b
  | _, _ => false

/-- Elementwise equality of value lists. -/
def vlbeq : List Val → List Val → Bool
  | [], [] => true
  | a :: as, b :: bs => vbeq a b && vlbeq as bs
  | _, _ => false

/-- Entrywise equality of dictionaries. -/
def vdbeq : List (String × Val) → List (String × Val) → Bool
  | [], [] => true
  | (k, a) :: as, (l, b) :: bs => k == l && vbeq a b && vdbeq as bs
  | _, _ => false

end

/-- A document is a Python dict: an association list with unique keys. -/
abbrev Doc := List (String × Val)

/-- Dictionary lookup: `d.get(k)` / `d[k]` (the entry with the key; keys
are unique in a Python dict). -/
def dGet : Doc → String → Option Val
  | [], _ => none
  | p :: rest, k => if p.1 = k then some p.2 else dGet rest k

/-- Dictionary lookup with default: `d.get(k, v)`. -/
def dGetD (d : Doc) (k : String) (v : Val) : Val :=
  (dGet d k).getD v

/-- Dictionary assignment `d[k] = v`: replaces the value in place when the
key is present, otherwise appends the new entry. -/
def dSet : Doc → String → Val → Doc
  | [], k, v => [(k, v)]
  | p :: rest, k, v => if p.1 = k then (k, v) :: rest else p :: dSet rest k v

/-- Dictionary removal `d.pop(k)` (the removal part; Python dicts hold at
most one entry per key, so removing all occurrences is faithful). -/
def dErase : Doc → String → Doc
  | [], _ => []
  | p :: rest, k => if p.1 = k then dErase rest k else p :: dErase rest k

/-- Keys of a document. -/
def dKeys (d : Doc) : List String := d.map (fun p => p.1)

/-- Python `str(value)` as the adapter applies it to a storage identifier.
Only the ObjectId case is exercised by the code (`str(doc.pop("_id"))`);
the remaining cases are coarse renderings of Python stringification. -/
def valToString : Val → String
  | .null => "None"
  | .bool b => if b then "True" else "False"
  | .nat n => toString n
  | .str s => s
  | .oid n => "oid" ++ toString n
  | .list _ => "[...]"
  | .dict _ => "{...}"

/-- Python truthiness on stored values (`slides or [{}]`, `if not users`). -/
def truthy : Val → Bool
  | .null => false
  | .bool b => b
  | .nat n => n ≠ 0
  | .str s => s ≠ ""
  | .oid _ => true
  | .list vs => ¬ vs.isEmpty
  | .dict fs => ¬ fs.isEmpty

/-- The Mongo database: named collections of documents plus a counter
supplying fresh ObjectIds. -/
structure Store where
  colls : List (String × List Doc)
  ctr : Nat
  deriving Repr

/-- Entry lookup in the collection table (a missing collection is empty). -/
def getEntry : List (String × List Doc) → String → List Doc
  | [], _ => []
  | p :: rest, n => if p.1 = n then p.2 else getEntry rest n

/-- Entry replacement in the collection table, creating the entry if absent. -/
def setEntry : List (String × List Doc) → String → List Doc → List (String × List Doc)
  | [], n, docs => [(n, docs)]
  | p :: rest, n, docs => if p.1 = n then (n, docs) :: rest else p :: setEntry rest n docs

/-- Documents of a named collection. -/
def getColl (st : Store) (name : String) : List Doc :=
  getEntry st.colls name

/-- Replace a collection's documents, creating the collection if needed. -/
def setColl (st : Store) (name : String) (docs : List Doc) : Store :=
  { st with colls := setEntry st.colls name docs }

/-- Mongo equality-filter matching: every filter entry must equal the
document's value under that key; a `null` filter value also matches a
missing key, as Mongo's `{k: null}` does. -/
def matchesFilter (filter : Doc) (d : Doc) : Bool :=
  filter.all (fun p =>
    match dGet d p.1 with
    | some w => vbeq w p.2
    | none => vbeq p.2 Val.null)

/-- Mongo `find_one(filter)`: the first stored document matching the filter. -/
def findOne (st : Store) (name : String) (filter : Doc) : Option Doc :=
  (getColl st name).find? (matchesFilter filter)

/-- Mongo `find(filter).limit(n)`: matching documents in storage order;
Mongo treats limit 0 as "no limit". -/
def findMany (st : Store) (name : String) (filter : Doc) (limit : Nat) : List Doc :=
  let ms := (getColl st name).filter (matchesFilter filter)
  if limit = 0 then ms else ms.take limit

/-- Mongo `insert_one(data)`: stores the document, assigning a fresh
ObjectId under `_id` when the data does not already carry one, and
returns the inserted identifier. -/
def insertOne (st : Store) (name : String) (data : Doc) : Store × Val :=
  match dGet data "_id" with
  | some v => (setColl { st with ctr := st.ctr + 1 } name (getColl st name ++ [data]), v)
  | none =>
      let d := dSet data "_id" (Val.oid st.ctr)
      (setColl { st with ctr := st.ctr + 1 } name (getColl st name ++ [d]), Val.oid st.ctr)

/-- Mongo's `$set` operator: write each of `data`'s fields into `d`. -/
def dMerge (d : Doc) (data : Doc) : Doc :=
  data.foldl (fun acc p => dSet acc p.1 p.2) d

/-- Mongo `update_one(filter, {"$set": data})`: merge `data`'s fields into
the first matching document; a no-op when nothing matches. -/
def updateFirst (docs : List Doc) (filter : Doc) (data : Doc) : List Doc :=
  match docs with
  | [] => []
  | d :: rest =>
      if matchesFilter filter d then
        dMerge d data :: rest
      else
        d :: updateFirst rest filter data

/-- Adapter normalization `doc["id"] = str(doc.pop("_id"))`: rename the
storage identifier to a string `id` field; `none` models the `KeyError`
raised when the document lacks `_id`. -/
def normalizeDoc (d : Doc) : Option Doc :=
  match dGet d "_id" with
  | some v => some (dSet (dErase d "_id") "id" (Val.str (valToString v)))
  | none => none

/-- `create_document`: insert, immediately re-read by the inserted id,
and return the normalized record (`{}` when the re-read finds nothing,
per `return doc or {}`). `none` models an uncaught exception. -/
def create_document (st : Store) (name : String) (data : Doc) : Option (Store × Doc) :=
  let r := insertOne st name data
  match findOne r.1 name [("_id", r.2)] with
  | some doc => (normalizeDoc doc).map (fun nd => (r.1, nd))
  | none => some (r.1, [])

/-- The cursor loop of `get_documents`: normalize each record in order,
propagating the exception a record without `_id` would raise. -/
def normalizeAll : List Doc → Option (List Doc)
  | [] => some []
  | d :: rest =>
      match normalizeDoc d with
      | none => none
      | some nd => (normalizeAll rest).map (fun rs => nd :: rs)

/-- `get_documents`: matching records in storage order, each normalized. -/
def get_documents (st : Store) (name : String) (filter : Doc) (limit : Nat) :
    Option (List Doc) :=
  normalizeAll (findMany st name filter limit)

/-- `get_document`: the first matching record normalized, or an explicit
"not found" (`some none`); outer `none` models an uncaught exception. -/
def get_document (st : Store) (name : String) (filter : Doc) : Option (Option Doc) :=
  match findOne st name filter with
  | none => some none
  | some d => (normalizeDoc d).map some

/-- `update_document`: `$set` the given fields on the first matching
record, then re-read with the same filter and return that result. -/
def update_document (st : Store) (name : String) (filter : Doc) (data : Doc) :
    Option (Store × Option Doc) :=
  let st' := setColl st name (updateFirst (getColl st name) filter data)
  (get_document st' name filter).map (fun r => (st', r))

/-- Outcome observed by an HTTP caller: a successful payload, or an
`HTTPException(status_code, detail)`. -/
inductive Resp (α : Type) where
  | ok (a : α)
  | err (code : Nat) (detail : String)
  deriving Repr

/-- `GET /projects/{project_id}`: the project read path, filtering the
project collection by `{"id": project_id}`. -/
def getProject (st : Store) (projectId : String) : Option (Resp Doc) :=
  match get_document st "project" [("id", Val.str projectId)] with
  | none => none
  | some none => some (.err 404 "Project not found")
  | some (some proj) => some (.ok proj)

/-- `POST /auth/login`: fetch the user by email, then check the password.
`verify` stands for `pwd_context.verify`; the success payload is the
`{sub, email}` claims of the issued token. An unknown email, a falsy
password and a failed verification all raise the same exception. -/
def login (verify : String → Val → Bool) (st : Store) (email : String)
    (password : Option String) : Option (Resp (Val × Val)) :=
  match get_documents st "user" [("email", Val.str email)] 1 with
  | none => none
  | some [] => some (.err 400 "Invalid credentials")
  | some (user :: _) =>
      let pwOk :=
        match password with
        | none => false
        | some pw =>
            if pw = "" then false
            else verify pw (dGetD user "hashed_password" (Val.str ""))
      if pwOk then
        match dGet user "id", dGet user "email" with
        | some i, some e => some (.ok (i, e))
        | _, _ => none
      else some (.err 400 "Invalid credentials")

/-- Seconds in `timedelta(days=14)`. -/
def fourteenDays : Nat := 14 * 86400

/-- The `ShareLink` record serialized by `link.dict()`: schema field order,
`id` defaulting to `None`, `expires_at = created_at + 14 days`. -/
def shareLinkDict (projectId token role : String) (now : Nat) : Doc :=
  [("id", Val.null), ("project_id", Val.str projectId), ("token", Val.str token),
   ("role", Val.str role), ("created_at", Val.nat now),
   ("expires_at", Val.nat (now + fourteenDays))]

/-- `POST /share` (`create_share_link`): build the share-link record and
create it; the random URL-safe token and the current time are inputs of
the model. -/
def createShareLink (st : Store) (projectId token role : String) (now : Nat) :
    Option (Store × Doc) :=
  create_document st "sharelink" (shareLinkDict projectId token role now)

/-- `GET /share/{token}` (`get_shared_project`): look the link up by its
token, then the project by the link's `project_id`. The handler never
reads `expires_at`. -/
def getSharedProject (st : Store) (token : String) : Option (Resp Doc) :=
  match get_documents st "sharelink" [("token", Val.str token)] 1 with
  | none => none
  | some [] => some (.err 404 "Link not found")
  | some (link :: _) =>
      match dGet link "project_id" with
      | none => none
      | some pid =>
          match get_document st "project" [("id", pid)] with
          | none => none
          | some none => some (.err 404 "Project not found")
          | some (some proj) => some (.ok proj)

/-- Rewrite a collection's documents in place (used only to state that the
share lookup never consults certain fields). -/
def mapColl (st : Store) (name : String) (f : Doc → Doc) : Store :=
  { st with colls := st.colls.map (fun p => if p.1 = name then (p.1, p.2.map f) else p) }

/-- Overwrite every stored share link's `expires_at` with time `t`. -/
def setShareLinkExpiry (st : Store) (t : Nat) : Store :=
  mapColl st "sharelink" (fun d => dSet d "expires_at" (Val.nat t))

/-- One rendered slide image of the images branch: fixed 1080×1920 canvas,
background fill, drawn text and text color exactly as computed there. -/
structure Img where
  width : Nat
  height : Nat
  bg : Val
  text : Val
  color : Val
  deriving Repr

/-- Per-slide rendering of the images branch (`idx` is 1-indexed): colors
and text from the slide dict with the branch's defaults. -/
def renderImageSlide (idx : Nat) (s : Doc) : Img :=
  { width := 1080, height := 1920,
    bg := dGetD s "bg" (Val.str "#111827"),
    text := dGetD s "text" (Val.str ("Slide " ++ toString idx)),
    color := dGetD s "color" (Val.str "#ffffff") }

/-- Archive entries of the images branch: name `slide_{idx}.png` and the
rendered image, 1-indexed, in iteration order. -/
def imagesEntries (ds : List Doc) : List (String × Img) :=
  ds.enum.map (fun p =>
    ("slide_" ++ toString (p.1 + 1) ++ ".png", renderImageSlide (p.1 + 1) p.2))

/-- Text of the single text box the pptx branch puts on a page. -/
def pptxSlideText (idx : Nat) (s : Doc) : Val :=
  dGetD s "text" (Val.str ("Slide " ++ toString idx))

/-- Page texts of the pptx branch, in iteration order. -/
def pptxTexts (ds : List Doc) : List Val :=
  ds.enum.map (fun p => pptxSlideText (p.1 + 1) p.2)

/-- Coerce a slide value to a dict; `none` models the exception Python
raises when a slide is iterated but is not a mapping. -/
def asDict : Val → Option Doc
  | .dict d => some d
  | _ => none

/-- Iterate slide values as mappings, propagating the exception a
non-mapping slide would raise. -/
def allDicts : List Val → Option (List Doc)
  | [] => some []
  | v :: rest =>
      match asDict v with
      | none => none
      | some d => (allDicts rest).map (fun ds => d :: ds)

/-- The slide list the export branches iterate: `proj.get("slides", [])`
followed by `slides or [{}]`, which replaces a falsy value (absent, null
or empty list) by a single empty slide. -/
def effectiveSlides (proj : Doc) : Option (List Doc) :=
  let sv := dGetD proj "slides" (Val.list [])
  let sv := if truthy sv then sv else Val.list [Val.dict []]
  match sv with
  | Val.list vs => allDicts vs
  | _ => none

/-- Result of `POST /export`: a streamed artifact — a ZIP archive of per-
slide images, or a slide-deck document of per-page texts, each with MIME
type and download filename — or an HTTP error. -/
inductive ExportRes where
  | archive (entries : List (String × Img)) (mime fname : String)
  | deck (texts : List Val) (mime fname : String)
  | err (code : Nat) (detail : String)
  deriving Repr

/-- `POST /export` (`export_storyboard`): project lookup first, then
dispatch on the format string through the handler's branches. -/
def exportStoryboard (st : Store) (projectId format : String) : Option ExportRes :=
  match get_document st "project" [("id", Val.str projectId)] with
  | none => none
  | some none => some (.err 404 "Project not found")
  | some (some proj) =>
      if format = "images" then
        (effectiveSlides proj).map (fun ds =>
          .archive (imagesEntries ds) "application/zip" "slides.zip")
      else if format = "pptx" then
        (effectiveSlides proj).map (fun ds =>
          .deck (pptxTexts ds)
            "application/vnd.openxmlformats-officedocument.presentationml.presentation"
            "storyboard.pptx")
      else if format = "video" then
        some (.err 501 "Video export not implemented in demo")
      else
        some (.err 400 "Invalid format")

/-- The `format` field validation of `SlideExportRequest`:
`Literal['images', 'video', 'pptx']`. -/
def parseFormat (f : String) : Option String :=
  if f = "images" ∨ f = "video" ∨ f = "pptx" then some f else none

/-- Well-formed stored document: carries a storage identifier. -/
def wfDoc (d : Doc) : Bool :=
  (dGet d "_id").isSome

/-- Well-formed store: every stored document carries a storage identifier,
as every document inserted through Mongo does. -/
def wfStore (st : Store) : Bool :=
  st.colls.all (fun p => p.2.all wfDoc)

/-- Normalized record shape: a string `id` field is present and the
storage-internal `_id` is not. -/
def goodDoc (d : Doc) : Prop :=
  (∃ s, dGet d "id" = some (Val.str s)) ∧ dGet d "_id" = none

/-- A project record as `Project(...).dict()` serializes it when the
client supplies no `id`: the schema's `id` field defaults to `None` and
is stored verbatim by the insert. -/
def projectData : Doc :=
  [("id", Val.null), ("owner_id", Val.str "u1"), ("title", Val.str "T")]

/-- A stored project document whose literal `id` field is `"p1"` (as
arises when the client supplies `id` on creation), with two slides. -/
def sampleProjectDoc : Doc :=
  [("_id", Val.oid 7), ("id", Val.str "p1"), ("owner_id", Val.str "u"),
   ("title", Val.str "T"),
   ("slides", Val.list [Val.dict [("text", Val.str "Welcome")],
                        Val.dict [("bg", Val.str "#ff0000")]])]

/-- A store holding only the sample project. -/
def sampleStore : Store := ⟨[("project", [sampleProjectDoc])], 8⟩

/-- The empty store. -/
def emptyStore : Store := ⟨[], 0⟩

/-- A one-record collection for exercising the update path. -/
def updDoc : Doc := [("_id", Val.oid 0), ("a", Val.str "x"), ("b", Val.str "y")]

/-- A store holding only `updDoc`, in collection `c`. -/
def updStore : Store := ⟨[("c", [updDoc])], 1⟩

/-- A stored user record for the login scenarios. -/
def sampleUserDoc : Doc :=
  [("_id", Val.oid 3), ("id", Val.null), ("email", Val.str "a@b.c"),
   ("name", Val.null), ("provider", Val.str "email"),
   ("hashed_password", Val.str "digest"), ("created_at", Val.nat 500)]

/-- A store holding only the sample user. -/
def userStore : Store := ⟨[("user", [sampleUserDoc])], 4⟩

/-- The sample project as the adapter returns it: `_id` renamed to `id`
and stringified, shadowing the client-supplied `"p1"`. -/
def sampleNormProj : Doc :=
  [("id", Val.str "oid7"), ("owner_id", Val.str "u"), ("title", Val.str "T"),
   ("slides", Val.list [Val.dict [("text", Val.str "Welcome")],
                        Val.dict [("bg", Val.str "#ff0000")]])]

/-- The sample project's slides as dicts. -/
def sampleSlides : List Doc :=
  [[("text", Val.str "Welcome")], [("bg", Val.str "#ff0000")]]

/-- The sample project's slides as stored values. -/
def sampleSlideVals : List Val :=
  [Val.dict [("text", Val.str "Welcome")], Val.dict [("bg", Val.str "#ff0000")]]

/-- The store after creating `projectData` in the empty store: the stored
document keeps its serialized `id` of `None` next to the new `_id`. -/
def roundTripStore : Store :=
  ⟨[("project", [[("id", Val.null), ("owner_id", Val.str "u1"), ("title", Val.str "T"),
                  ("_id", Val.oid 0)]])], 1⟩

/-- The record `create_document` hands back for `projectData`. -/
def roundTripRecord : Doc :=
  [("id", Val.str "oid0"), ("owner_id", Val.str "u1"), ("title", Val.str "T")]

/-- `updStore` after `$set`-ing `{"a": "z"}` on its record. -/
def updStoreAfter : Store :=
  ⟨[("c", [[("_id", Val.oid 0), ("a", Val.str "z"), ("b", Val.str "y")]])], 1⟩

/-- The share-link record with its assigned storage identifier, as
`insert_one` stores it. -/
def shareNewDoc (st : Store) (pid tok role : String) (now : Nat) : Doc :=
  dSet (shareLinkDict pid tok role now) "_id" (Val.oid st.ctr)

def shareStoreAfter (st : Store) (pid tok role : String) (now : Nat) : Store :=
  setColl { st with ctr := st.ctr + 1 } "sharelink"
    (getColl st "sharelink" ++ [shareNewDoc st pid tok role now])

def shareLinkRecord (st : Store) (pid tok role : String) (now : Nat) : Doc :=
  dSet (dErase (shareNewDoc st pid tok role now) "_id") "id"
    (Val.str (valToString (Val.oid st.ctr)))


theorem dGet_dSet_self (d : Doc) (k : String) (v : Val) : dGet (dSet d k v) k = some v := by
  induction d with
  | nil => simp [dGet, dSet]
  | cons p rest ih =>
      by_cases h : p.1 = k
      · simp [dSet, h, dGet]
      · simp [dSet, h, dGet, ih]

theorem dGet_dSet_ne (d : Doc) (k k' : String) (v : Val) (h : ¬ k' = k) :
    dGet (dSet d k v) k' = dGet d k' := by
  have h' : ¬ k = k' := fun hh => h hh.symm
  induction d with
  | nil => simp [dGet, dSet, h']
  | cons p rest ih =>
      by_cases hp : p.1 = k
      · subst hp
        simp [dSet, dGet, h']
      · simp only [dSet, if_neg hp]
        by_cases hp' : p.1 = k'
        · simp [dGet, hp']
        · simp [dGet, hp', ih]

theorem dGet_dErase_self (d : Doc) (k : String) : dGet (dErase d k) k = none := by
  induction d with
  | nil => simp [dGet, dErase]
  | cons p rest ih =>
      by_cases h : p.1 = k
      · simpa [dErase, h] using ih
      · simpa [dErase, h, dGet] using ih

theorem dGet_dErase_ne (d : Doc) (k k' : String) (h : ¬ k' = k) :
    dGet (dErase d k) k' = dGet d k' := by
  have h' : ¬ k = k' := fun hh => h hh.symm
  induction d with
  | nil => simp [dGet, dErase]
  | cons p rest ih =>
      by_cases hp : p.1 = k
      · have hp' : ¬ p.1 = k' := by
          rw [hp]; exact fun hh => h hh.symm
        simp [dErase, dGet, hp, hp', ih, h']
      · by_cases hp' : p.1 = k'
        · simp [dErase, dGet, hp, hp', h]
        · simp [dErase, dGet, hp, hp', ih]

mutual

theorem vbeq_refl : ∀ v : Val, vbeq v v = true
  | .null => rfl
  | .bool b => by simp [vbeq]
  | .nat n => by simp [vbeq]
  | .str s => by simp [vbeq]
  | .oid n => by simp [vbeq]
  | .list vs => by simp [vbeq, vlbeq_refl vs]
  | .dict fs => by simp [vbeq, vdbeq_refl fs]

theorem vlbeq_refl : ∀ vs : List Val, vlbeq vs vs = true
  | [] => rfl
  | v :: vs => by simp [vlbeq, vbeq_refl v, vlbeq_refl vs]

theorem vdbeq_refl : ∀ fs : List (String × Val), vdbeq fs fs = true
  | [] => rfl
  | (k, v) :: fs => by simp [vdbeq, vbeq_refl v, vdbeq_refl fs]

end

theorem normalizeDoc_good (d nd : Doc) (h : normalizeDoc d = some nd) : goodDoc nd := by
  cases hv : dGet d "_id" with
  | none =>
      simp only [normalizeDoc, hv] at h
      exact Option.noConfusion h
  | some v =>
      simp only [normalizeDoc, hv, Option.some.injEq] at h
      subst h
      refine ⟨⟨valToString v, dGet_dSet_self _ _ _⟩, ?_⟩
      rw [dGet_dSet_ne _ _ _ _ (by decide), dGet_dErase_self]

theorem normalize_of_wf (d : Doc) (h : wfDoc d = true) : ∃ nd, normalizeDoc d = some nd := by
  unfold wfDoc at h
  cases hv : dGet d "_id" with
  | none => rw [hv] at h; simp at h
  | some v =>
      exact ⟨dSet (dErase d "_id") "id" (Val.str (valToString v)),
        by simp only [normalizeDoc, hv]⟩

theorem dGet_normalizeDoc_other (d nd : Doc) (k : String) (h : normalizeDoc d = some nd)
    (h1 : ¬ k = "id") (h2 : ¬ k = "_id") : dGet nd k = dGet d k := by
  cases hv : dGet d "_id" with
  | none =>
      simp only [normalizeDoc, hv] at h
      exact Option.noConfusion h
  | some v =>
      simp only [normalizeDoc, hv, Option.some.injEq] at h
      subst h
      rw [dGet_dSet_ne _ _ _ _ h1, dGet_dErase_ne _ _ _ h2]

theorem getEntry_setEntry_self (l : List (String × List Doc)) (n : String) (docs : List Doc) :
    getEntry (setEntry l n docs) n = docs := by
  induction l with
  | nil => simp [getEntry, setEntry]
  | cons p rest ih =>
      by_cases h : p.1 = n
      · simp [setEntry, getEntry, h]
      · simp [setEntry, getEntry, h, ih]

theorem getEntry_setEntry_ne (l : List (String × List Doc)) (n n' : String) (docs : List Doc)
    (h : ¬ n' = n) : getEntry (setEntry l n docs) n' = getEntry l n' := by
  have h' : ¬ n = n' := fun hh => h hh.symm
  induction l with
  | nil => simp [getEntry, setEntry, h']
  | cons p rest ih =>
      by_cases hp : p.1 = n
      · have hp' : ¬ p.1 = n' := by rw [hp]; exact h'
        simp [setEntry, getEntry, hp, hp', h']
      · by_cases hp' : p.1 = n'
        · simp [setEntry, getEntry, hp, hp', h]
        · simp [setEntry, getEntry, hp, hp', ih]

theorem getColl_setColl_self (st : Store) (n : String) (docs : List Doc) :
    getColl (setColl st n docs) n = docs :=
  getEntry_setEntry_self st.colls n docs

theorem getColl_setColl_ne (st : Store) (n n' : String) (docs : List Doc) (h : ¬ n' = n) :
    getColl (setColl st n docs) n' = getColl st n' :=
  getEntry_setEntry_ne st.colls n n' docs h

theorem getEntry_all_wf (l : List (String × List Doc)) (n : String)
    (h : ∀ p ∈ l, ∀ d ∈ p.2, wfDoc d = true) : ∀ d ∈ getEntry l n, wfDoc d = true := by
  induction l with
  | nil => simp [getEntry]
  | cons p rest ih =>
      intro d hd
      by_cases hn : p.1 = n
      · exact h p (by simp) d (by simpa [getEntry, hn] using hd)
      · exact ih (fun q hq => h q (by simp [hq])) d (by simpa [getEntry, hn] using hd)

theorem wf_getColl (st : Store) (h : wfStore st = true) (n : String) :
    ∀ d ∈ getColl st n, wfDoc d = true := by
  refine getEntry_all_wf st.colls n ?_
  intro p hp d hd
  unfold wfStore at h
  rw [List.all_eq_true] at h
  have := h p hp
  rw [List.all_eq_true] at this
  exact this d hd

theorem dMerge_cons (d : Doc) (p : String × Val) (rest : Doc) :
    dMerge d (p :: rest) = dMerge (dSet d p.1 p.2) rest := rfl

theorem dGet_dMerge_isSome (d data : Doc) (k : String) (h : (dGet d k).isSome = true) :
    (dGet (dMerge d data) k).isSome = true := by
  induction data generalizing d with
  | nil => exact h
  | cons p rest ih =>
      rw [dMerge_cons]
      apply ih
      by_cases hp : k = p.1
      · subst hp; rw [dGet_dSet_self]; rfl
      · rw [dGet_dSet_ne _ _ _ _ hp]; exact h

theorem dGet_dMerge_not_mem (d data : Doc) (k : String) (h : ¬ k ∈ dKeys data) :
    dGet (dMerge d data) k = dGet d k := by
  induction data generalizing d with
  | nil => rfl
  | cons p rest ih =>
      simp only [dKeys, List.map_cons, List.mem_cons] at h
      push_neg at h
      rw [dMerge_cons, ih _ (by simpa [dKeys] using h.2), dGet_dSet_ne _ _ _ _ h.1]

theorem dGet_dMerge_mem (d data : Doc) (k : String) (v : Val)
    (hnd : (dKeys data).Nodup) (h : dGet data k = some v) :
    dGet (dMerge d data) k = some v := by
  induction data generalizing d with
  | nil => cases h
  | cons p rest ih =>
      simp only [dKeys, List.map_cons, List.nodup_cons] at hnd
      rw [dMerge_cons]
      by_cases hp : p.1 = k
      · have hv : p.2 = v := by simpa [dGet, hp] using h
        subst hv
        have hk : ¬ k ∈ dKeys rest := by rw [← hp]; simpa [dKeys] using hnd.1
        rw [dGet_dMerge_not_mem _ _ _ hk, ← hp, dGet_dSet_self]
      · have h' : dGet rest k = some v := by simpa [dGet, hp] using h
        exact ih _ hnd.2 h'

theorem updateFirst_no_match (docs : List Doc) (filter data : Doc)
    (h : ∀ d ∈ docs, ¬ matchesFilter filter d = true) :
    updateFirst docs filter data = docs := by
  induction docs with
  | nil => rfl
  | cons x rest ih =>
      rw [updateFirst, if_neg (h x (by simp)), ih (fun y hy => h y (by simp [hy]))]

theorem find?_updateFirst (docs : List Doc) (filter data d : Doc)
    (hfind : docs.find? (matchesFilter filter) = some d)
    (hm : matchesFilter filter (dMerge d data) = true) :
    (updateFirst docs filter data).find? (matchesFilter filter) = some (dMerge d data) := by
  induction docs with
  | nil => cases hfind
  | cons x rest ih =>
      by_cases hx : matchesFilter filter x = true
      · have hxd : x = d := by
          rw [List.find?_cons_of_pos _ hx, Option.some.injEq] at hfind
          exact hfind
        subst hxd
        rw [updateFirst, if_pos hx, List.find?_cons_of_pos _ hm]
      · have hfind' : rest.find? (matchesFilter filter) = some d := by
          rwa [List.find?_cons_of_neg _ hx] at hfind
        rw [updateFirst, if_neg hx, List.find?_cons_of_neg _ hx, ih hfind']

theorem updateFirst_wf (docs : List Doc) (filter data : Doc)
    (h : ∀ d ∈ docs, wfDoc d = true) :
    ∀ d ∈ updateFirst docs filter data, wfDoc d = true := by
  induction docs with
  | nil => simp [updateFirst]
  | cons x rest ih =>
      intro d hd
      by_cases hx : matchesFilter filter x = true
      · rw [updateFirst, if_pos hx] at hd
        rcases List.mem_cons.1 hd with rfl | hd
        · exact dGet_dMerge_isSome _ _ _ (h x (by simp))
        · exact h d (by simp [hd])
      · rw [updateFirst, if_neg hx] at hd
        rcases List.mem_cons.1 hd with rfl | hd
        · exact h d (by simp)
        · exact ih (fun y hy => h y (by simp [hy])) d hd

theorem normalizeAll_good (l : List Doc) (h : ∀ d ∈ l, wfDoc d = true) :
    ∃ rs, normalizeAll l = some rs ∧ ∀ nd ∈ rs, goodDoc nd := by
  induction l with
  | nil => exact ⟨[], rfl, by simp⟩
  | cons d rest ih =>
      obtain ⟨nd, hnd⟩ := normalize_of_wf d (h d (by simp))
      obtain ⟨rs, hrs, hg⟩ := ih (fun y hy => h y (by simp [hy]))
      refine ⟨nd :: rs, by simp [normalizeAll, hnd, hrs], ?_⟩
      intro x hx
      rcases List.mem_cons.1 hx with rfl | hx
      · exact normalizeDoc_good _ _ hnd
      · exact hg x hx

theorem allDicts_length (vs : List Val) (ds : List Doc) (h : allDicts vs = some ds) :
    ds.length = vs.length := by
  induction vs generalizing ds with
  | nil =>
      simp only [allDicts, Option.some.injEq] at h
      subst h; rfl
  | cons v rest ih =>
      cases hv : asDict v with
      | none => simp [allDicts, hv] at h
      | some d =>
          simp only [allDicts, hv] at h
          cases hr : allDicts rest with
          | none => rw [hr] at h; cases h
          | some rs =>
              rw [hr] at h
              simp only [Option.map_some', Option.some.injEq] at h
              subst h
              simp [ih rs hr]

theorem imagesEntries_length (ds : List Doc) : (imagesEntries ds).length = ds.length := by
  simp [imagesEntries]

theorem imagesEntries_names (ds : List Doc) :
    (imagesEntries ds).map Prod.fst =
      (List.range ds.length).map (fun i => "slide_" ++ toString (i + 1) ++ ".png") := by
  unfold imagesEntries
  rw [List.map_map]
  have hcomp : (Prod.fst ∘ fun p : Nat × Doc =>
      ("slide_" ++ toString (p.1 + 1) ++ ".png", renderImageSlide (p.1 + 1) p.2)) =
      (fun i => "slide_" ++ toString (i + 1) ++ ".png") ∘ Prod.fst := rfl
  rw [hcomp, ← List.map_map, List.enum_map_fst]

theorem getEntry_mapEntry_self (l : List (String × List Doc)) (n : String) (f : Doc → Doc) :
    getEntry (l.map (fun p => if p.1 = n then (p.1, p.2.map f) else p)) n =
      (getEntry l n).map f := by
  induction l with
  | nil => simp [getEntry]
  | cons p rest ih =>
      by_cases hp : p.1 = n
      · simp [getEntry, hp]
      · simp [getEntry, hp, ih]

theorem getEntry_mapEntry_ne (l : List (String × List Doc)) (n m : String) (f : Doc → Doc)
    (h : ¬ m = n) :
    getEntry (l.map (fun p => if p.1 = n then (p.1, p.2.map f) else p)) m = getEntry l m := by
  have h' : ¬ n = m := fun hh => h hh.symm
  induction l with
  | nil => simp [getEntry]
  | cons p rest ih =>
      by_cases hp : p.1 = n
      · have hp' : ¬ p.1 = m := by rw [hp]; exact h'
        simp [getEntry, hp, hp', ih, h']
      · by_cases hp' : p.1 = m
        · simp [getEntry, hp, hp', h]
        · simp [getEntry, hp, hp', ih]

theorem getColl_mapColl_self (st : Store) (n : String) (f : Doc → Doc) :
    getColl (mapColl st n f) n = (getColl st n).map f :=
  getEntry_mapEntry_self st.colls n f

theorem getColl_mapColl_ne (st : Store) (n m : String) (f : Doc → Doc) (h : ¬ m = n) :
    getColl (mapColl st n f) m = getColl st m :=
  getEntry_mapEntry_ne st.colls n m f h

theorem matchesFilter_congr (filter d1 d2 : Doc)
    (h : ∀ q ∈ filter, dGet d2 q.1 = dGet d1 q.1) :
    matchesFilter filter d2 = matchesFilter filter d1 := by
  unfold matchesFilter
  induction filter with
  | nil => rfl
  | cons q rest ih =>
      simp only [List.all_cons]
      rw [h q (by simp), ih (fun q' hq' => h q' (by simp [hq']))]

theorem findOne_eq (st : Store) (name : String) (filter : Doc) :
    findOne st name filter = (getColl st name).find? (matchesFilter filter) := rfl

theorem get_document_missing (st : Store) (name : String) (filter : Doc)
    (h : findOne st name filter = none) : get_document st name filter = some none := by
  unfold get_document
  rw [h]

theorem get_document_found (st : Store) (name : String) (filter : Doc) (d : Doc)
    (h : findOne st name filter = some d) :
    get_document st name filter = (normalizeDoc d).map some := by
  unfold get_document
  rw [h]

theorem update_document_eq (st : Store) (name : String) (filter data : Doc) :
    update_document st name filter data =
      (get_document (setColl st name (updateFirst (getColl st name) filter data))
          name filter).map
        (fun r => (setColl st name (updateFirst (getColl st name) filter data), r)) := rfl

theorem find?_append_right {α : Type} (p : α → Bool) (l1 l2 : List α)
    (h : ∀ a ∈ l1, ¬ p a = true) : (l1 ++ l2).find? p = l2.find? p := by
  induction l1 with
  | nil => rfl
  | cons a l ih =>
      rw [List.cons_append, List.find?_cons_of_neg _ (h a (by simp))]
      exact ih (fun x hx => h x (by simp [hx]))

theorem getSharedProject_eq_cons (s : Store) (tk : String) (link : Doc) (rest : List Doc)
    (h : get_documents s "sharelink" [("token", Val.str tk)] 1 = some (link :: rest)) :
    getSharedProject s tk =
      match dGet link "project_id" with
      | none => none
      | some pid =>
          match get_document s "project" [("id", pid)] with
          | none => none
          | some none => some (.err 404 "Project not found")
          | some (some proj) => some (.ok proj) := by
  unfold getSharedProject
  rw [h]

theorem getSharedProject_expiry_invariant (s : Store) (tk : String) (t : Nat) :
    getSharedProject (setShareLinkExpiry s t) tk = getSharedProject s tk := by
  have hmf : ∀ d : Doc, matchesFilter [("token", Val.str tk)]
      (dSet d "expires_at" (Val.nat t)) = matchesFilter [("token", Val.str tk)] d := by
    intro d
    apply matchesFilter_congr
    intro q hq
    rcases List.mem_singleton.1 hq with rfl
    exact dGet_dSet_ne d "expires_at" "token" (Val.nat t) (by decide)
  have hfind : findMany (setShareLinkExpiry s t) "sharelink" [("token", Val.str tk)] 1 =
      (findMany s "sharelink" [("token", Val.str tk)] 1).map
        (fun d => dSet d "expires_at" (Val.nat t)) := by
    show (((getColl (setShareLinkExpiry s t) "sharelink").filter
        (matchesFilter [("token", Val.str tk)])).take 1) = _
    unfold setShareLinkExpiry
    rw [getColl_mapColl_self s "sharelink" (fun d => dSet d "expires_at" (Val.nat t)),
      List.filter_map]
    rw [show (matchesFilter [("token", Val.str tk)] ∘ fun d => dSet d "expires_at" (Val.nat t))
        = matchesFilter [("token", Val.str tk)] from funext hmf]
    rw [← List.map_take]
    rfl
  have hlen : (findMany s "sharelink" [("token", Val.str tk)] 1).length ≤ 1 := by
    show (((getColl s "sharelink").filter (matchesFilter [("token", Val.str tk)])).take 1).length ≤ 1
    rw [List.length_take]
    exact min_le_left _ _
  cases hms : findMany s "sharelink" [("token", Val.str tk)] 1 with
  | nil =>
      have e1 : get_documents (setShareLinkExpiry s t) "sharelink"
          [("token", Val.str tk)] 1 = some [] := by
        unfold get_documents
        rw [hfind, hms]
        rfl
      have e2 : get_documents s "sharelink" [("token", Val.str tk)] 1 = some [] := by
        unfold get_documents
        rw [hms]
        rfl
      unfold getSharedProject
      rw [e1, e2]
  | cons d rest =>
      have hrest : rest = [] := by
        rw [hms] at hlen
        simp only [List.length_cons] at hlen
        exact List.length_eq_zero.1 (Nat.le_zero.1 (Nat.le_of_succ_le_succ hlen))
      subst hrest
      cases hv : dGet d "_id" with
      | none =>
          have hnf : normalizeDoc (dSet d "expires_at" (Val.nat t)) = none := by
            unfold normalizeDoc
            rw [show dGet (dSet d "expires_at" (Val.nat t)) "_id" = dGet d "_id" from
              dGet_dSet_ne d "expires_at" "_id" (Val.nat t) (by decide), hv]
          have hnd : normalizeDoc d = none := by
            unfold normalizeDoc
            rw [hv]
          have e1 : get_documents (setShareLinkExpiry s t) "sharelink"
              [("token", Val.str tk)] 1 = none := by
            unfold get_documents
            rw [hfind, hms]
            simp only [List.map_cons, List.map_nil, normalizeAll]
            rw [hnf]
          have e2 : get_documents s "sharelink" [("token", Val.str tk)] 1 = none := by
            unfold get_documents
            rw [hms]
            simp only [normalizeAll]
            rw [hnd]
          unfold getSharedProject
          rw [e1, e2]
      | some w =>
          have hnf : normalizeDoc (dSet d "expires_at" (Val.nat t)) =
              some (dSet (dErase (dSet d "expires_at" (Val.nat t)) "_id") "id"
                (Val.str (valToString w))) := by
            unfold normalizeDoc
            rw [show dGet (dSet d "expires_at" (Val.nat t)) "_id" = dGet d "_id" from
              dGet_dSet_ne d "expires_at" "_id" (Val.nat t) (by decide), hv]
          have hnd : normalizeDoc d =
              some (dSet (dErase d "_id") "id" (Val.str (valToString w))) := by
            unfold normalizeDoc
            rw [hv]
          have e1 : get_documents (setShareLinkExpiry s t) "sharelink"
              [("token", Val.str tk)] 1 =
              some [dSet (dErase (dSet d "expires_at" (Val.nat t)) "_id") "id"
                (Val.str (valToString w))] := by
            unfold get_documents
            rw [hfind, hms]
            simp only [List.map_cons, List.map_nil, normalizeAll]
            rw [hnf]
            rfl
          have e2 : get_documents s "sharelink" [("token", Val.str tk)] 1 =
              some [dSet (dErase d "_id") "id" (Val.str (valToString w))] := by
            unfold get_documents
            rw [hms]
            simp only [normalizeAll]
            rw [hnd]
            rfl
          have hpid : dGet (dSet (dErase (dSet d "expires_at" (Val.nat t)) "_id") "id"
              (Val.str (valToString w))) "project_id" =
              dGet (dSet (dErase d "_id") "id" (Val.str (valToString w))) "project_id" := by
            rw [dGet_dSet_ne _ _ _ _ (by decide), dGet_dSet_ne _ _ _ _ (by decide),
              dGet_dErase_ne _ _ _ (by decide), dGet_dErase_ne _ _ _ (by decide)]
            exact dGet_dSet_ne d "expires_at" "project_id" (Val.nat t) (by decide)
          rw [getSharedProject_eq_cons _ _ _ _ e1, getSharedProject_eq_cons _ _ _ _ e2, hpid]
          cases hq : dGet (dSet (dErase d "_id") "id" (Val.str (valToString w)))
              "project_id" with
          | none => rfl
          | some pidv =>
              show (match get_document (setShareLinkExpiry s t) "project" [("id", pidv)] with
                  | none => none
                  | some none => some (Resp.err 404 "Project not found")
                  | some (some proj) => some (Resp.ok proj)) =
                (match get_document s "project" [("id", pidv)] with
                  | none => none
                  | some none => some (Resp.err 404 "Project not found")
                  | some (some proj) => some (Resp.ok proj))
              rw [show get_document (setShareLinkExpiry s t) "project" [("id", pidv)] =
                  get_document s "project" [("id", pidv)] from by
                unfold get_document findOne setShareLinkExpiry
                rw [getColl_mapColl_ne s "sharelink" "project"
                  (fun d => dSet d "expires_at" (Val.nat t)) (by decide)]]


theorem insertOne_getColl (st : Store) (name : String) (data : Doc) :
    ∃ nd, getColl (insertOne st name data).1 name = getColl st name ++ [nd] ∧
      dGet nd "_id" = some (insertOne st name data).2 := by
  unfold insertOne
  cases hv : dGet data "_id" with
  | some v => exact ⟨data, by rw [getColl_setColl_self], hv⟩
  | none =>
      exact ⟨dSet data "_id" (Val.oid st.ctr), by rw [getColl_setColl_self],
        dGet_dSet_self _ _ _⟩

theorem create_document_good (st : Store) (name : String) (data : Doc)
    (hwf : wfStore st = true) :
    ∃ st' nd, create_document st name data = some (st', nd) ∧ goodDoc nd := by
  obtain ⟨newd, hcoll, hnew⟩ := insertOne_getColl st name data
  have hmem : newd ∈ getColl (insertOne st name data).1 name := by
    rw [hcoll]; simp
  have hmatch : matchesFilter [("_id", (insertOne st name data).2)] newd = true := by
    unfold matchesFilter
    simp [hnew, vbeq_refl]
  have hsome : ((getColl (insertOne st name data).1 name).find?
      (matchesFilter [("_id", (insertOne st name data).2)])).isSome := by
    rw [List.find?_isSome]
    exact ⟨newd, hmem, hmatch⟩
  obtain ⟨dd, hdd⟩ := Option.isSome_iff_exists.1 hsome
  have hfo : findOne (insertOne st name data).1 name
      [("_id", (insertOne st name data).2)] = some dd := hdd
  have hddmem : dd ∈ getColl (insertOne st name data).1 name :=
    List.mem_of_find?_eq_some hdd
  have hddwf : wfDoc dd = true := by
    rw [hcoll] at hddmem
    rcases List.mem_append.1 hddmem with h | h
    · exact wf_getColl st hwf name dd h
    · rcases List.mem_singleton.1 h with rfl
      unfold wfDoc
      rw [hnew]
      rfl
  obtain ⟨nd, hnd⟩ := normalize_of_wf dd hddwf
  refine ⟨(insertOne st name data).1, nd, ?_, normalizeDoc_good dd nd hnd⟩
  have hcreq : create_document st name data =
      (normalizeDoc dd).map (fun x => ((insertOne st name data).1, x)) := by
    simp only [create_document]
    rw [hfo]
  rw [hcreq, hnd]
  rfl

/-- C1: the round-trip claim fails on the code. Creating a project record
through the store adapter hands back a normalized copy whose `id` is the
stringified storage identifier, but the rename is never persisted — the
stored document still holds the serialized `id` of `None` — so the read
path's fetch by `{"id": returned id}` finds nothing. -/
theorem c1_roundtrip_read_fails :
    create_document emptyStore "project" projectData = some (roundTripStore, roundTripRecord) ∧
    dGet roundTripRecord "id" = some (Val.str "oid0") ∧
    get_document roundTripStore "project" [("id", Val.str "oid0")] = some none :=
  ⟨rfl, rfl, rfl⟩

/-- C2: on a project id that resolves, the export handler answers format
`images` and format `pptx` (the slide-deck format) with a binary
artifact, format `video` with the 501 NotImplemented error, and every
format value outside the enum with the 400 Invalid-format client error.
-/
theorem c2_format_dispatch (st : Store) (pid : String) (proj : Doc) (ds : List Doc)
    (hp : get_document st "project" [("id", Val.str pid)] = some (some proj))
    (hs : effectiveSlides proj = some ds) :
    exportStoryboard st pid "images" =
      some (.archive (imagesEntries ds) "application/zip" "slides.zip") ∧
    exportStoryboard st pid "pptx" =
      some (.deck (pptxTexts ds)
        "application/vnd.openxmlformats-officedocument.presentationml.presentation"
        "storyboard.pptx") ∧
    exportStoryboard st pid "video" =
      some (.err 501 "Video export not implemented in demo") ∧
    ∀ f, ¬ f = "images" → ¬ f = "pptx" → ¬ f = "video" →
      exportStoryboard st pid f = some (.err 400 "Invalid format") := by
  refine ⟨?_, ?_, ?_, ?_⟩
  · simp [exportStoryboard, hp, hs]
  · simp [exportStoryboard, hp, hs]
  · simp [exportStoryboard, hp]
  · intro f h1 h2 h3
    simp [exportStoryboard, hp, h1, h2, h3]

/-- C2 witness: the sample project store answers `video` with 501 and an
arbitrary out-of-enum format with the 400 Invalid-format error. -/
theorem c2_format_dispatch_witness :
    exportStoryboard sampleStore "p1" "video" =
      some (.err 501 "Video export not implemented in demo") ∧
    exportStoryboard sampleStore "p1" "gif" = some (.err 400 "Invalid format") :=
  ⟨(c2_format_dispatch sampleStore "p1" sampleNormProj sampleSlides rfl rfl).2.2.1,
   (c2_format_dispatch sampleStore "p1" sampleNormProj sampleSlides rfl rfl).2.2.2 "gif"
     (by decide) (by decide) (by decide)⟩

/-- C4: when the project id does not resolve, the export handler returns
the 404 Project-not-found error for every format value, valid or not —
NotFound takes precedence over format validation. -/
theorem c4_notfound_precedence (st : Store) (pid : String)
    (h : findOne st "project" [("id", Val.str pid)] = none) :
    ∀ format, exportStoryboard st pid format = some (.err 404 "Project not found") := by
  intro format
  simp [exportStoryboard, get_document, h]

/-- C4 witness: the empty store with an invalid format still yields 404.
-/
theorem c4_notfound_precedence_witness :
    exportStoryboard emptyStore "p1" "gif" = some (.err 404 "Project not found") :=
  c4_notfound_precedence emptyStore "p1" rfl "gif"

/-- C5: a slide without a `text` key renders at 1-indexed position n with
text "Slide n" on both the images path and the slide-deck path; on the
images path a missing `bg` defaults to the dark neutral `#111827` and a
missing `color` to white `#ffffff`. -/
theorem c5_slide_defaults (n : Nat) (s : Doc) (ht : dGet s "text" = none) :
    (renderImageSlide n s).text = Val.str ("Slide " ++ toString n) ∧
    pptxSlideText n s = Val.str ("Slide " ++ toString n) ∧
    (dGet s "bg" = none → (renderImageSlide n s).bg = Val.str "#111827") ∧
    (dGet s "color" = none → (renderImageSlide n s).color = Val.str "#ffffff") := by
  refine ⟨?_, ?_, ?_, ?_⟩
  · simp [renderImageSlide, dGetD, ht]
  · simp [pptxSlideText, dGetD, ht]
  · intro hb; simp [renderImageSlide, dGetD, hb]
  · intro hc; simp [renderImageSlide, dGetD, hc]

/-- C5 witness: the empty slide at position 1 takes all three defaults on
the images path and the default text on the slide-deck path. -/
theorem c5_slide_defaults_witness :
    (renderImageSlide 1 []).text = Val.str ("Slide " ++ toString 1) ∧
    pptxSlideText 1 [] = Val.str ("Slide " ++ toString 1) ∧
    (renderImageSlide 1 []).bg = Val.str "#111827" ∧
    (renderImageSlide 1 []).color = Val.str "#ffffff" :=
  ⟨(c5_slide_defaults 1 [] rfl).1, (c5_slide_defaults 1 [] rfl).2.1,
   (c5_slide_defaults 1 [] rfl).2.2.1 rfl, (c5_slide_defaults 1 [] rfl).2.2.2 rfl⟩

/-- C7 counterexample: the filter `{"a": "x"}` matches the stored record
and the update `{"a": "z"}` is merged into it, yet the adapter reports
"not found", because the post-update re-read reuses the original filter,
which the updated record no longer satisfies — refuting the claim that
an update with a matching record returns the post-update record. -/
theorem c7_update_counterexample :
    matchesFilter [("a", Val.str "x")] updDoc = true ∧
    update_document updStore "c" [("a", Val.str "x")] [("a", Val.str "z")] =
      some (updStoreAfter, none) :=
  ⟨rfl, rfl⟩

/-- C10: a format value accepted by the request schema is `images`,
`video` or `pptx`, so the handler's final 400 Invalid-format branch is
unreachable: every defined outcome of a schema-valid request is an
artifact, the 404 or the 501. -/
theorem c10_fallback_unreachable (f fmt : String) (hf : parseFormat f = some fmt)
    (st : Store) (pid : String) :
    ¬ exportStoryboard st pid f = some (.err 400 "Invalid format") ∧
    ∀ r, exportStoryboard st pid f = some r →
      (∃ es m n, r = .archive es m n) ∨ (∃ ts m n, r = .deck ts m n) ∨
      r = .err 404 "Project not found" ∨
      r = .err 501 "Video export not implemented in demo" := by
  have hf3 : f = "images" ∨ f = "video" ∨ f = "pptx" := by
    by_cases h : f = "images" ∨ f = "video" ∨ f = "pptx"
    · exact h
    · simp [parseFormat, h] at hf
  have key : ∀ r, exportStoryboard st pid f = some r →
      (∃ es m n, r = .archive es m n) ∨ (∃ ts m n, r = .deck ts m n) ∨
      r = .err 404 "Project not found" ∨
      r = .err 501 "Video export not implemented in demo" := by
    intro r hr
    cases hq : get_document st "project" [("id", Val.str pid)] with
    | none =>
        have hval : exportStoryboard st pid f = none := by
          unfold exportStoryboard; rw [hq]
        rw [hval] at hr
        exact Option.noConfusion hr
    | some o =>
        cases o with
        | none =>
            have hval : exportStoryboard st pid f =
                some (.err 404 "Project not found") := by
              unfold exportStoryboard; rw [hq]
            rw [hval] at hr
            simp only [Option.some.injEq] at hr
            exact Or.inr (Or.inr (Or.inl hr.symm))
        | some proj =>
            rcases hf3 with rfl | rfl | rfl
            · have hval : exportStoryboard st pid "images" = (effectiveSlides proj).map
                  (fun ds => ExportRes.archive (imagesEntries ds)
                    "application/zip" "slides.zip") := by
                simp [exportStoryboard, hq]
              rw [hval] at hr
              cases hs : effectiveSlides proj with
              | none => rw [hs] at hr; exact Option.noConfusion hr
              | some ds =>
                  rw [hs] at hr
                  simp only [Option.map_some', Option.some.injEq] at hr
                  exact Or.inl ⟨_, _, _, hr.symm⟩
            · have hval : exportStoryboard st pid "video" =
                  some (.err 501 "Video export not implemented in demo") := by
                simp [exportStoryboard, hq]
              rw [hval] at hr
              simp only [Option.some.injEq] at hr
              exact Or.inr (Or.inr (Or.inr hr.symm))
            · have hval : exportStoryboard st pid "pptx" = (effectiveSlides proj).map
                  (fun ds => ExportRes.deck (pptxTexts ds)
                    "application/vnd.openxmlformats-officedocument.presentationml.presentation"
                    "storyboard.pptx") := by
                simp [exportStoryboard, hq]
              rw [hval] at hr
              cases hs : effectiveSlides proj with
              | none => rw [hs] at hr; exact Option.noConfusion hr
              | some ds =>
                  rw [hs] at hr
                  simp only [Option.map_some', Option.some.injEq] at hr
                  exact Or.inr (Or.inl ⟨_, _, _, hr.symm⟩)
  refine ⟨?_, key⟩
  intro hbad
  rcases key _ hbad with ⟨es, m, n, h⟩ | ⟨ts, m, n, h⟩ | h | h <;> simp at h

/-- C10 witness: format `video` is schema-valid, the handler does not
answer it with the 400 Invalid-format error, and its outcome on the
sample store is among the allowed shapes. -/
theorem c10_fallback_unreachable_witness :
    ¬ exportStoryboard sampleStore "p1" "video" = some (.err 400 "Invalid format") :=
  (c10_fallback_unreachable "video" "video" rfl sampleStore "p1").1

/-- C3: the images export of a project with N slides is an archive of
exactly N entries — exactly one when N = 0 — named slide_1.png through
slide_N.png, in the order of the project's slide list. -/
theorem c3_archive_slide_count (st : Store) (pid : String) (proj : Doc) (ss : List Val)
    (ds : List Doc)
    (hp : get_document st "project" [("id", Val.str pid)] = some (some proj))
    (hs : dGet proj "slides" = some (Val.list ss))
    (hd : allDicts ss = some ds) :
    ∃ es, exportStoryboard st pid "images" =
        some (.archive es "application/zip" "slides.zip") ∧
      es = imagesEntries (if ss.isEmpty then [[]] else ds) ∧
      es.length = (if ss.length = 0 then 1 else ss.length) ∧
      es.map Prod.fst = (List.range (if ss.length = 0 then 1 else ss.length)).map
        (fun i => "slide_" ++ toString (i + 1) ++ ".png") := by
  have hds : effectiveSlides proj = some (if ss.isEmpty then [[]] else ds) := by
    cases ss with
    | nil => simp [effectiveSlides, dGetD, hs, truthy, allDicts, asDict]
    | cons v vs => simp [effectiveSlides, dGetD, hs, truthy, hd]
  have hlen : ds.length = ss.length := allDicts_length ss ds hd
  refine ⟨imagesEntries (if ss.isEmpty then [[]] else ds), ?_, rfl, ?_, ?_⟩
  · simp [exportStoryboard, hp, hds]
  · rw [imagesEntries_length]
    cases ss with
    | nil => simp
    | cons v vs => simp [hlen]
  · rw [imagesEntries_names]
    cases ss with
    | nil => simp
    | cons v vs => simp [hlen]

/-- C3 witness at the two-slide sample project. -/
theorem c3_archive_slide_count_witness :
    ∃ es, exportStoryboard sampleStore "p1" "images" =
        some (.archive es "application/zip" "slides.zip") ∧
      es = imagesEntries (if sampleSlideVals.isEmpty then [[]] else sampleSlides) ∧
      es.length = (if sampleSlideVals.length = 0 then 1 else sampleSlideVals.length) ∧
      es.map Prod.fst =
        (List.range (if sampleSlideVals.length = 0 then 1 else sampleSlideVals.length)).map
        (fun i => "slide_" ++ toString (i + 1) ++ ".png") :=
  c3_archive_slide_count sampleStore "p1" sampleNormProj sampleSlideVals sampleSlides
    rfl rfl rfl

/-- C9: a login with an email matching no user and a login with a known
email but a failing password check produce identical observable errors —
status 400 with detail "Invalid credentials" — so the two cases cannot
be distinguished by a caller. -/
theorem c9_login_indistinguishable (verify : String → Val → Bool) (st : Store)
    (e1 e2 : String) (p1 p2 : Option String) (u : Doc) (rest : List Doc)
    (h1 : get_documents st "user" [("email", Val.str e1)] 1 = some [])
    (h2 : get_documents st "user" [("email", Val.str e2)] 1 = some (u :: rest))
    (hp : ∀ pw, p2 = some pw →
      pw = "" ∨ verify pw (dGetD u "hashed_password" (Val.str "")) = false) :
    login verify st e1 p1 = some (.err 400 "Invalid credentials") ∧
    login verify st e2 p2 = some (.err 400 "Invalid credentials") ∧
    login verify st e1 p1 = login verify st e2 p2 := by
  have l1 : login verify st e1 p1 = some (.err 400 "Invalid credentials") := by
    simp [login, h1]
  have l2 : login verify st e2 p2 = some (.err 400 "Invalid credentials") := by
    cases p2 with
    | none => simp [login, h2]
    | some pw =>
        rcases hp pw rfl with rfl | hv
        · simp [login, h2]
        · by_cases he : pw = ""
          · simp [login, h2, he]
          · simp [login, h2, he, hv]
  exact ⟨l1, l2, l1.trans l2.symm⟩

/-- C9 witness: unknown email vs. known email with rejected password on
the sample user store, with a verifier that rejects the attempt. -/
theorem c9_login_indistinguishable_witness :
    login (fun _ _ => false) userStore "x@y.z" (some "pw") =
      some (.err 400 "Invalid credentials") ∧
    login (fun _ _ => false) userStore "a@b.c" (some "wrong") =
      some (.err 400 "Invalid credentials") ∧
    login (fun _ _ => false) userStore "x@y.z" (some "pw") =
      login (fun _ _ => false) userStore "a@b.c" (some "wrong") :=
  c9_login_indistinguishable (fun _ _ => false) userStore "x@y.z" "a@b.c"
    (some "pw") (some "wrong") (normalizeDoc sampleUserDoc).get! [] rfl rfl
    (fun _ _ => Or.inr rfl)

/-- C7 amended: update_document merges exactly the given fields into the
first record matching the filter, leaves that record's other fields
untouched, and returns "not found" when no record matches; it returns
the post-update normalized record provided the partial record writes no
field named in the filter (and no storage id). -/
theorem c7_update_merge (st : Store) (name : String) (filter data : Doc)
    (hdisj : ∀ p ∈ data, ∀ q ∈ filter, ¬ p.1 = q.1) :
    (findOne st name filter = none →
      ∃ st', update_document st name filter data = some (st', none)) ∧
    (∀ d, findOne st name filter = some d → wfDoc d = true →
      ∃ st' nd, update_document st name filter data = some (st', some nd) ∧
        normalizeDoc (dMerge d data) = some nd ∧
        (∀ k, ¬ k ∈ dKeys data → dGet (dMerge d data) k = dGet d k) ∧
        (∀ k v, (dKeys data).Nodup → dGet data k = some v →
          dGet (dMerge d data) k = some v)) := by
  constructor
  · intro hnone
    have hall : ∀ d ∈ getColl st name, ¬ matchesFilter filter d = true := by
      intro d hd hm
      exact List.find?_eq_none.1 hnone d hd hm
    refine ⟨setColl st name (updateFirst (getColl st name) filter data), ?_⟩
    have hfo : findOne (setColl st name (updateFirst (getColl st name) filter data))
        name filter = none := by
      rw [findOne_eq, getColl_setColl_self, updateFirst_no_match _ _ _ hall]
      exact hnone
    rw [update_document_eq, get_document_missing _ _ _ hfo]
    rfl
  · intro d hfind hwfd
    have hkey : ∀ q ∈ filter, ¬ q.1 ∈ dKeys data := by
      intro q hq hk
      rcases List.mem_map.1 hk with ⟨p, hpmem, hpk⟩
      exact hdisj p hpmem q hq hpk
    have hmm : matchesFilter filter (dMerge d data) = matchesFilter filter d :=
      matchesFilter_congr filter d (dMerge d data)
        (fun q hq => dGet_dMerge_not_mem d data q.1 (hkey q hq))
    have hmatch : matchesFilter filter (dMerge d data) = true := by
      rw [hmm]
      exact List.find?_some hfind
    have hfind' : (updateFirst (getColl st name) filter data).find? (matchesFilter filter) =
        some (dMerge d data) :=
      find?_updateFirst (getColl st name) filter data d hfind hmatch
    have hwfm : wfDoc (dMerge d data) = true :=
      dGet_dMerge_isSome d data "_id" hwfd
    obtain ⟨nd, hnd⟩ := normalize_of_wf (dMerge d data) hwfm
    refine ⟨setColl st name (updateFirst (getColl st name) filter data), nd, ?_, hnd, ?_, ?_⟩
    · have hfo : findOne (setColl st name (updateFirst (getColl st name) filter data))
          name filter = some (dMerge d data) := by
        rw [findOne_eq, getColl_setColl_self]
        exact hfind'
      rw [update_document_eq, get_document_found _ _ _ _ hfo, hnd]
      rfl
    · exact fun k hk => dGet_dMerge_not_mem d data k hk
    · exact fun k v hnod hv => dGet_dMerge_mem d data k v hnod hv

/-- C7 amended-claim witness: an update disjoint from the filter on the
one-record store returns the post-update normalized record. -/
theorem c7_update_merge_witness :
    ∃ st' nd, update_document updStore "c" [("a", Val.str "x")] [("b", Val.str "z")] =
        some (st', some nd) ∧
      normalizeDoc (dMerge updDoc [("b", Val.str "z")]) = some nd ∧
      (∀ k, ¬ k ∈ dKeys [("b", Val.str "z")] →
        dGet (dMerge updDoc [("b", Val.str "z")]) k = dGet updDoc k) ∧
      (∀ k v, (dKeys [("b", Val.str "z")]).Nodup → dGet [("b", Val.str "z")] k = some v →
        dGet (dMerge updDoc [("b", Val.str "z")]) k = some v) :=
  (c7_update_merge updStore "c" [("a", Val.str "x")] [("b", Val.str "z")]
    (by decide)).2 updDoc rfl rfl

/-- C6: on a well-formed store (every stored document carries `_id`, as
Mongo guarantees), every record handed out by the adapter's read
operations — create_document's re-read, get_documents, get_document and
update_document's returned record — carries a string `id` field and does
not expose the storage-internal `_id`. -/
theorem c6_normalized_records (st : Store) (name : String) (filter data : Doc) (limit : Nat)
    (hwf : wfStore st = true) :
    (∃ st' nd, create_document st name data = some (st', nd) ∧ goodDoc nd) ∧
    (∃ rs, get_documents st name filter limit = some rs ∧ ∀ d ∈ rs, goodDoc d) ∧
    (get_document st name filter = some none ∨
      ∃ d, get_document st name filter = some (some d) ∧ goodDoc d) ∧
    (∀ st' r, update_document st name filter data = some (st', r) →
      r = none ∨ ∃ d, r = some d ∧ goodDoc d) := by
  refine ⟨create_document_good st name data hwf, ?_, ?_, ?_⟩
  · refine normalizeAll_good (findMany st name filter limit) ?_
    intro d hd
    apply wf_getColl st hwf name
    have hd' : d ∈ (if limit = 0 then ((getColl st name).filter (matchesFilter filter))
        else ((getColl st name).filter (matchesFilter filter)).take limit) := hd
    by_cases h0 : limit = 0
    · rw [if_pos h0] at hd'
      exact List.filter_subset' _ hd'
    · rw [if_neg h0] at hd'
      exact List.filter_subset' _ (List.take_subset _ _ hd')
  · cases hfo : findOne st name filter with
    | none => exact Or.inl (get_document_missing _ _ _ hfo)
    | some d =>
        have hdwf : wfDoc d = true :=
          wf_getColl st hwf name d (List.mem_of_find?_eq_some hfo)
        obtain ⟨nd, hnd⟩ := normalize_of_wf d hdwf
        refine Or.inr ⟨nd, ?_, normalizeDoc_good d nd hnd⟩
        rw [get_document_found _ _ _ _ hfo, hnd]
        rfl
  · intro st' r hr
    rw [update_document_eq] at hr
    have hwf2 : ∀ d ∈ getColl (setColl st name (updateFirst (getColl st name) filter data))
        name, wfDoc d = true := by
      rw [getColl_setColl_self]
      exact updateFirst_wf _ _ _ (wf_getColl st hwf name)
    cases hfo : findOne (setColl st name (updateFirst (getColl st name) filter data))
        name filter with
    | none =>
        rw [get_document_missing _ _ _ hfo] at hr
        simp only [Option.map_some', Option.some.injEq, Prod.mk.injEq] at hr
        exact Or.inl hr.2.symm
    | some d =>
        have hdwf : wfDoc d = true := hwf2 d (List.mem_of_find?_eq_some hfo)
        obtain ⟨nd, hnd⟩ := normalize_of_wf d hdwf
        rw [get_document_found _ _ _ _ hfo, hnd] at hr
        simp only [Option.map_some', Option.some.injEq, Prod.mk.injEq] at hr
        exact Or.inr ⟨nd, hr.2.symm, normalizeDoc_good d nd hnd⟩

/-- C6 witness on the one-user store with an email filter and a partial
update. -/
theorem c6_normalized_records_witness :
    (∃ st' nd, create_document userStore "user" [("email", Val.str "b@b.c")] =
        some (st', nd) ∧ goodDoc nd) ∧
    (∃ rs, get_documents userStore "user" [("email", Val.str "a@b.c")] 1 = some rs ∧
      ∀ d ∈ rs, goodDoc d) ∧
    (get_document userStore "user" [("email", Val.str "a@b.c")] = some none ∨
      ∃ d, get_document userStore "user" [("email", Val.str "a@b.c")] = some (some d) ∧
        goodDoc d) ∧
    (∀ st' r, update_document userStore "user" [("email", Val.str "a@b.c")]
        [("email", Val.str "b@b.c")] = some (st', r) →
      r = none ∨ ∃ d, r = some d ∧ goodDoc d) :=
  c6_normalized_records userStore "user" [("email", Val.str "a@b.c")]
    [("email", Val.str "b@b.c")] 1 rfl

/-- C8: a share link is created with a 14-day validity window
(`expires_at = created_at + 14 days`); fetching by its token returns the
referenced project — in particular before expiry — provided the project
resolves by the link's project id; and the lookup never consults
`expires_at`: its result is unchanged under overwriting every stored
link's expiry, so a lookup after expiry is not rejected on expiry
grounds. -/
theorem c8_share_link (st : Store) (pid tok role : String) (now : Nat) (pdoc : Doc)
    (hfresh : ∀ d ∈ getColl st "sharelink",
      ¬ matchesFilter [("_id", Val.oid st.ctr)] d = true)
    (htok : ∀ d ∈ getColl st "sharelink",
      ¬ matchesFilter [("token", Val.str tok)] d = true)
    (hp : findOne st "project" [("id", Val.str pid)] = some pdoc)
    (hw : wfDoc pdoc = true) :
    ∃ st2 ld npdoc,
      createShareLink st pid tok role now = some (st2, ld) ∧
      dGet ld "created_at" = some (Val.nat now) ∧
      dGet ld "expires_at" = some (Val.nat (now + fourteenDays)) ∧
      normalizeDoc pdoc = some npdoc ∧
      getSharedProject st2 tok = some (.ok npdoc) ∧
      (∀ t, getSharedProject (setShareLinkExpiry st2 t) tok = getSharedProject st2 tok) := by
  obtain ⟨npdoc, hnp⟩ := normalize_of_wf pdoc hw
  have hm : matchesFilter [("_id", Val.oid st.ctr)] (shareNewDoc st pid tok role now) = true := by
    show (st.ctr == st.ctr) && true = true
    simp
  have hptok : matchesFilter [("token", Val.str tok)] (shareNewDoc st pid tok role now) = true := by
    show (tok == tok) && true = true
    simp
  have hfo1 : findOne (shareStoreAfter st pid tok role now) "sharelink"
      [("_id", Val.oid st.ctr)] = some (shareNewDoc st pid tok role now) := by
    rw [findOne_eq]
    rw [show getColl (shareStoreAfter st pid tok role now) "sharelink" =
        getColl st "sharelink" ++ [shareNewDoc st pid tok role now] from
      getColl_setColl_self _ _ _]
    rw [find?_append_right _ _ _ hfresh, List.find?_cons_of_pos _ hm]
  have hcre : createShareLink st pid tok role now =
      some (shareStoreAfter st pid tok role now, shareLinkRecord st pid tok role now) := by
    show (match findOne (shareStoreAfter st pid tok role now) "sharelink"
        [("_id", Val.oid st.ctr)] with
      | some doc => (normalizeDoc doc).map
          (fun nd => (shareStoreAfter st pid tok role now, nd))
      | none => some (shareStoreAfter st pid tok role now, [])) =
      some (shareStoreAfter st pid tok role now, shareLinkRecord st pid tok role now)
    rw [hfo1]
    rfl
  have hfm : findMany (shareStoreAfter st pid tok role now) "sharelink"
      [("token", Val.str tok)] 1 = [shareNewDoc st pid tok role now] := by
    show ((getColl (shareStoreAfter st pid tok role now) "sharelink").filter
        (matchesFilter [("token", Val.str tok)])).take 1 = [shareNewDoc st pid tok role now]
    rw [show getColl (shareStoreAfter st pid tok role now) "sharelink" =
        getColl st "sharelink" ++ [shareNewDoc st pid tok role now] from
      getColl_setColl_self _ _ _]
    rw [List.filter_append, List.filter_eq_nil_iff.2 htok, List.nil_append,
      List.filter_cons, if_pos hptok]
    rfl
  have e4 : get_documents (shareStoreAfter st pid tok role now) "sharelink"
      [("token", Val.str tok)] 1 = some [shareLinkRecord st pid tok role now] := by
    unfold get_documents
    rw [hfm]
    rfl
  have hfo2 : findOne (shareStoreAfter st pid tok role now) "project"
      [("id", Val.str pid)] = some pdoc := by
    rw [findOne_eq,
      show getColl (shareStoreAfter st pid tok role now) "project" =
        getColl { st with ctr := st.ctr + 1 } "project" from
      getColl_setColl_ne _ _ _ _ (by decide : ¬ "project" = "sharelink")]
    exact hp
  have hgd2 : get_document (shareStoreAfter st pid tok role now) "project"
      [("id", Val.str pid)] = some (some npdoc) := by
    rw [get_document_found _ _ _ _ hfo2, hnp]
    rfl
  have e5 : getSharedProject (shareStoreAfter st pid tok role now) tok =
      some (.ok npdoc) := by
    rw [getSharedProject_eq_cons _ _ _ _ e4]
    show (match get_document (shareStoreAfter st pid tok role now) "project"
        [("id", Val.str pid)] with
      | none => none
      | some none => some (Resp.err 404 "Project not found")
      | some (some proj) => some (Resp.ok proj)) = some (Resp.ok npdoc)
    rw [hgd2]
  exact ⟨shareStoreAfter st pid tok role now, shareLinkRecord st pid tok role now, npdoc,
    hcre, rfl, rfl, hnp, e5,
    fun t => getSharedProject_expiry_invariant (shareStoreAfter st pid tok role now) tok t⟩

/-- C8 witness on the sample store: link for project `p1`, token
`tok123`, issued at time 1000. -/
theorem c8_share_link_witness :
    ∃ st2 ld npdoc,
      createShareLink sampleStore "p1" "tok123" "viewer" 1000 = some (st2, ld) ∧
      dGet ld "created_at" = some (Val.nat 1000) ∧
      dGet ld "expires_at" = some (Val.nat (1000 + fourteenDays)) ∧
      normalizeDoc sampleProjectDoc = some npdoc ∧
      getSharedProject st2 "tok123" = some (.ok npdoc) ∧
      (∀ t, getSharedProject (setShareLinkExpiry st2 t) "tok123" =
        getSharedProject st2 "tok123") :=
  c8_share_link sampleStore "p1" "tok123" "viewer" 1000 sampleProjectDoc
    (by decide) (by decide) rfl rfl

end Storyboard
